import Mathlib

/-!
Verification development for the osay text-to-speech CLI (src/say.py).

The cache directory is modelled as a list of files; each file has a name,
a filesystem modification time, and, for metadata records, the result of
parsing its JSON content (a full record when parsing succeeds, none when
the content is malformed, exactly mirroring AudioCache._load_metadata,
which catches every exception and returns None). Audio payload files carry
parsed = none; they are never parsed by the code because the glob pattern
used everywhere is *.json.

External collaborators (the OpenAI backend, subprocess players, the uuid4
generator, the wall clock) are injected as explicit parameters, following
the source structure: subprocess.run outcomes become a ProcRun value,
uuid.uuid4() strings and datetime.now().isoformat() become arguments.
Python string slicing and suffix tests operate on code points, so they are
modelled on String.data (the character list).
-/

namespace Osay

instance exceptDecEq {ε α : Type} [DecidableEq ε] [DecidableEq α] :
    DecidableEq (Except ε α) := fun x y =>
  match x, y with
  | .ok a, .ok b =>
      if h : a = b then isTrue (by rw [h]) else isFalse (fun hc => h (Except.ok.inj hc))
  | .error a, .error b =>
      if h : a = b then isTrue (by rw [h]) else isFalse (fun hc => h (Except.error.inj hc))
  | .ok _, .error _ => isFalse (fun hc => Except.noConfusion hc)
  | .error _, .ok _ => isFalse (fun hc => Except.noConfusion hc)

/-- Python string slicing s[:n] operates on code points: List.take on the
character data. -/
def strTake (s : String) (n : Nat) : String := String.mk (s.data.take n)

/-- Python str.endswith on code points. -/
def strEndsWith (s p : String) : Bool :=
  decide (s.data.drop (s.data.length - p.data.length) = p.data)

def jsonExt : String := ".json"

/-- A file name matched by the glob pattern *.json used by AudioCache. -/
def isJsonName (s : String) : Bool := strEndsWith s jsonExt

/-- Exceptions of the Python runtime that the modelled code can raise or
catch: subprocess.CalledProcessError, FileNotFoundError, KeyboardInterrupt. -/
inductive PExc
  | calledProcessError
  | fileNotFoundError
  | keyboardInterrupt
deriving DecidableEq

/-- Outcome of one subprocess.run invocation of an external command:
exit code zero, nonzero exit code (with check=True this raises
CalledProcessError), binary not installed (raises FileNotFoundError), or
the user interrupting the wait (raises KeyboardInterrupt). -/
inductive ProcRun
  | ok
  | exitErr
  | missing
  | interrupt
deriving DecidableEq

/-- subprocess.run with check=True, as an Except value. -/
def runProc (r : ProcRun) : Except PExc Unit :=
  match r with
  | .ok => .ok ()
  | .exitErr => .error .calledProcessError
  | .missing => .error .fileNotFoundError
  | .interrupt => .error .keyboardInterrupt

/-- The metadata record written by AudioCache.save_metadata; the schema of
one cache JSON file. -/
structure Metadata where
  id : String
  timestamp : String
  text : String
  voice : Option String
  format : String
  provider : String
  instructions : Option String
  audio_file : String
deriving DecidableEq

/-- One file of the cache directory: its name, its filesystem modification
time, and the result json.load would give on its content (none when the
content is not a well-formed record, as for audio payloads or corrupted
metadata). -/
structure File where
  name : String
  mtime : Nat
  parsed : Option Metadata
deriving DecidableEq

/-- The cache directory state: the list of files it contains. -/
abbrev Dir := List File

def MAX_CACHE_SIZE : Nat := 10

/-- CACHE_DIR.glob with pattern *.json. -/
def globJson (d : Dir) : List File := d.filter (fun f => isJsonName f.name)

/-- Key of the sort in _cleanup_old_files and list_cached: sorted by
st_mtime with reverse=True, newest first. -/
def mtimeDescRel (a b : File) : Prop := b.mtime ≤ a.mtime

instance : DecidableRel mtimeDescRel := fun a b => Nat.decLe b.mtime a.mtime

instance : IsTotal File mtimeDescRel := ⟨fun a b => Nat.le_total b.mtime a.mtime⟩

instance : IsTrans File mtimeDescRel := ⟨fun _ _ _ hab hbc => Nat.le_trans hbc hab⟩

/-- sorted(key=lambda f: f.stat().st_mtime, reverse=True); Python sorted is
a stable sort, modelled by insertion sort on the descending relation. -/
def sortedByMtimeDesc (l : List File) : List File := List.insertionSort mtimeDescRel l

/-- Path.exists for a name inside the cache directory. -/
def fileExists (d : Dir) (name : String) : Bool := d.any (fun f => f.name = name)

/-- Path.unlink: the file with the given name is gone. -/
def unlink (d : Dir) (name : String) : Dir := d.filter (fun f => f.name ≠ name)

/-- Path.unlink raising FileNotFoundError when the file is absent. -/
def unlinkE (d : Dir) (name : String) : Except PExc Dir :=
  if fileExists d name then .ok (unlink d name) else .error .fileNotFoundError

/-- AudioCache._load_metadata: open the file and json.load it, returning
None on any exception, including a missing file or malformed content. -/
def load_metadata (d : Dir) (name : String) : Option Metadata :=
  match d.find? (fun f => f.name = name) with
  | some f => f.parsed
  | none => none

/-- The state of the directory after the body of one iteration of the
eviction loop has removed the audio payload (if its metadata loads and the
payload is present) but before the metadata record itself is unlinked. -/
def evict_intermediate (d : Dir) (old : File) : Dir :=
  match load_metadata d old.name with
  | some m => if fileExists d m.audio_file then unlink d m.audio_file else d
  | none => d

/-- One iteration of the eviction loop of _cleanup_old_files: load the
metadata of the record, delete its audio payload when the metadata loads
and the payload exists, then delete the metadata record itself. -/
def evictOne (d : Dir) (old : File) : Except PExc Dir :=
  unlinkE (evict_intermediate d old) old.name

/-- AudioCache._cleanup_old_files: glob the metadata records, sort newest
first by modification time, and evict every record beyond the first
MAX_CACHE_SIZE. -/
def cleanup_old_files (d : Dir) : Except PExc Dir :=
  let audio_files := sortedByMtimeDesc (globJson d)
  if audio_files.length > MAX_CACHE_SIZE then
    (audio_files.drop MAX_CACHE_SIZE).foldlM evictOne d
  else .ok d

/-- AudioCache.__init__: mkdir (a no-op on the modelled directory state)
followed by the eviction pass. -/
def audioCache_init (d : Dir) : Except PExc Dir := cleanup_old_files d

/-- Writing a file: open(path, w) truncates any previous file of that name
and the write updates its modification time to the current time t. -/
def writeFile (d : Dir) (name : String) (t : Nat) (parsed : Option Metadata) : Dir :=
  unlink d name ++ [⟨name, t, parsed⟩]

/-- AudioCache.generate_cache_path: cache_id = str(uuid.uuid4())[:8], the
audio name is cache_id.format, the path is the cache directory joined with
that name. The uuid4 draw is injected as uuidStr. -/
def generate_cache_path (cacheDir : String) (uuidStr : String) (format : String) :
    String × String :=
  let cache_id := strTake uuidStr 8
  let cached_audio_name := cache_id ++ "." ++ format
  (cache_id, cacheDir ++ "/" ++ cached_audio_name)

/-- AudioCache.save_metadata: build the record (timestamp is the injected
datetime.now().isoformat() instant) and write it to cache_id.json; t is
the resulting modification time. -/
def save_metadata (d : Dir) (cache_id : String) (text : String) (voice : Option String)
    (format : String) (provider : String) (instructions : Option String)
    (timestamp : String) (t : Nat) : Dir :=
  let cached_audio_name := cache_id ++ "." ++ format
  let metadata : Metadata :=
    { id := cache_id, timestamp := timestamp, text := text, voice := voice,
      format := format, provider := provider, instructions := instructions,
      audio_file := cached_audio_name }
  writeFile d (cache_id ++ jsonExt) t (some metadata)

/-- AudioCache.list_cached: glob the records, sort newest first, load each
one and keep those that load to a record (malformed ones are skipped). -/
def list_cached (d : Dir) : List Metadata :=
  (sortedByMtimeDesc (globJson d)).filterMap (fun f => load_metadata d f.name)

/-- AudioCache.get_by_id: load cache_id.json. -/
def get_by_id (d : Dir) (cache_id : String) : Option Metadata :=
  load_metadata d (cache_id ++ jsonExt)

/-- AudioCache.play: resolve the record, check the payload exists, then run
afplay with check=True catching only subprocess.CalledProcessError. The
afplay outcome is injected. -/
def play (d : Dir) (afplay : ProcRun) (cache_id : String) : Except PExc Bool :=
  match get_by_id d cache_id with
  | none => .ok false
  | some metadata =>
    if fileExists d metadata.audio_file then
      match afplay with
      | .ok => .ok true
      | .exitErr => .ok false
      | .missing => .error .fileNotFoundError
      | .interrupt => .error .keyboardInterrupt
    else .ok false

/-! OpenAITTSProvider. -/

def VOICES : List String :=
  ["alloy", "ash", "ballad", "coral", "echo", "fable", "nova", "onyx", "sage", "shimmer"]

def DEFAULT_VOICE : String := "onyx"

/-- The keys of the AUDIO_FORMATS dict (each key maps to itself). -/
def AUDIO_FORMATS : List String := ["mp3", "opus", "aac", "flac", "wav", "pcm"]

def DEFAULT_FORMAT : String := "mp3"

/-- The model name passed in the API kwargs. -/
def API_MODEL : String := "gpt-4o-mini-tts"

/-- Python truthiness of an optional string argument: None and the empty
string are falsy. -/
def falsy (o : Option String) : Bool :=
  match o with
  | none => true
  | some s => s = ""

/-- Python <code>x if x else dflt</code> on an optional string. -/
def orDefault (o : Option String) (dflt : String) : String :=
  match o with
  | none => dflt
  | some s => if s = "" then dflt else s

/-- The ValueError raised by OpenAITTSProvider.synthesize before any API
interaction: it carries the rejected value and the list of valid choices
that the message text enumerates. -/
inductive SynthError
  | invalidVoice (invalid : String) (available : List String)
  | invalidFormat (invalid : String) (available : List String)
deriving DecidableEq

/-- The kwargs of the client.audio.speech API call that
OpenAITTSProvider.synthesize builds once validation has passed. -/
structure ApiRequest where
  model : String
  voice : String
  input : String
  response_format : String
  instructions : Option String
deriving DecidableEq

/-- The part of OpenAITTSProvider.synthesize that runs before the API call:
default substitution for falsy voice and format, membership validation
against VOICES and AUDIO_FORMATS, and assembly of the request kwargs
(instructions forwarded only when truthy). An error return means the
ValueError is raised before the API is contacted. -/
def openai_validate (text : String) (voice : Option String)
    (instructions : Option String) (response_format : Option String) :
    Except SynthError ApiRequest :=
  let voice := orDefault voice DEFAULT_VOICE
  if voice ∈ VOICES then
    let response_format := orDefault response_format DEFAULT_FORMAT
    if response_format ∈ AUDIO_FORMATS then
      .ok { model := API_MODEL, voice := voice, input := text,
            response_format := response_format,
            instructions := if falsy instructions then none else instructions }
    else .error (.invalidFormat response_format AUDIO_FORMATS)
  else .error (.invalidVoice voice VOICES)

/-- The formats the code sends to afplay directly when playing an
ephemeral synthesis result. -/
def AFPLAY_FORMATS : List String := ["wav", "pcm", "mp3", "aac"]

/-- The try block of the no-output-file branch of
OpenAITTSProvider.synthesize: afplay for the common formats; otherwise
ffplay, falling back to afplay when ffplay exits nonzero or is not
installed (only CalledProcessError and FileNotFoundError are caught). -/
def playback_block (response_format : String)
    (afplayMain ffplay afplayFallback : ProcRun) : Except PExc Unit :=
  if response_format ∈ AFPLAY_FORMATS then runProc afplayMain
  else
    match runProc ffplay with
    | .ok _ => .ok ()
    | .error .calledProcessError => runProc afplayFallback
    | .error .fileNotFoundError => runProc afplayFallback
    | .error .keyboardInterrupt => .error .keyboardInterrupt

/-- Outcome of response.stream_to_file writing the audio into the freshly
created temp file: completed, raised an exception (network or API failure
mid-download, wrapped into a RuntimeError by the handler around the whole
call), or interrupted by the user during the download. -/
inductive StreamRun
  | ok
  | raises
  | interrupt
deriving DecidableEq

/-- What propagates out of the no-output-file branch of
OpenAITTSProvider.synthesize: a normal return, an exception raised while
streaming into the temp file, an interruption of the streaming, or an
exception escaping the playback try block. -/
inductive EphemeralExit
  | ok
  | streamRaise
  | streamInterrupt
  | playExc (e : PExc)
deriving DecidableEq

/-- How the playback try block result leaves the function: a normal return
or a propagating exception. -/
def pyExit (r : Except PExc Unit) : EphemeralExit :=
  match r with
  | .ok _ => .ok
  | .error e => .playExc e

/-- The no-output-file branch of OpenAITTSProvider.synthesize, acting on
the OS temp area (a list of file names), following the source order:
tempfile.NamedTemporaryFile creates tmpName (delete=False), then
response.stream_to_file fills it, and only then the playback try block
runs with the finally clause os.unlink(tmp_path), which executes on every
path out of that block, normal or exceptional, before the outcome
propagates. The creation and the streaming write sit outside the
try/finally: when streaming raises or is interrupted, the function exits
without reaching the unlink and the temp file stays in the temp area. -/
def openai_synth_ephemeral (tempArea : List String) (tmpName : String)
    (response_format : String) (streaming : StreamRun)
    (afplayMain ffplay afplayFallback : ProcRun) :
    List String × EphemeralExit :=
  let tempArea := tmpName :: tempArea
  match streaming with
  | .raises => (tempArea, .streamRaise)
  | .interrupt => (tempArea, .streamInterrupt)
  | .ok =>
    let outcome := playback_block response_format afplayMain ffplay afplayFallback
    let tempArea := tempArea.erase tmpName
    (tempArea, pyExit outcome)

/-! TTSService. -/

/-- What TTSService.synthesize did in one call: the resulting cache
directory, whether an exception propagated out of it, the id whose
metadata was committed (if any), the list of targets it passed to
provider.synthesize, and the files the service itself played. -/
structure SpeakResult where
  dir : Dir
  raised : Bool
  committed : Option String
  provider_calls : List (Option String)
  played : List String
deriving DecidableEq

/-- TTSService.synthesize. Injected collaborators: the provider default
voice (present only when the provider class has DEFAULT_VOICE), the
provider class name, the uuid4 draw used by generate_cache_path, the
clock instant now, mtimes t (audio write) and t2 (metadata write), and
the outcomes providerOk (provider.synthesize returned instead of
raising), providerWrites (the audio file was written to the cache path
before the provider call ended), playOk (the afplay subprocess exited
zero). Branches follow the source: a truthy output_file delegates to the
provider with that target and touches neither cache nor player; the cache
branch synthesizes into the allocated slot, plays it, then saves
metadata; otherwise the provider plays ephemerally itself. -/
def service_synthesize
    (d : Dir)
    (provider_default_voice : Option String) (provider_name : String)
    (fresh_uuid : String) (now : String) (t t2 : Nat)
    (providerOk providerWrites playOk : Bool)
    (text : String) (output_file : Option String) (voice : Option String)
    (instructions : Option String) (response_format : Option String)
    (cache : Bool) : SpeakResult :=
  let voice := if falsy voice then
      (match provider_default_voice with
       | some dv => some dv
       | none => voice)
    else voice
  let fmt := orDefault response_format DEFAULT_FORMAT
  if falsy output_file = false then
    { dir := d, raised := !providerOk, committed := none,
      provider_calls := [output_file], played := [] }
  else if cache then
    let cache_id := strTake fresh_uuid 8
    let cached_audio_name := cache_id ++ "." ++ fmt
    let d1 := if providerOk || providerWrites then writeFile d cached_audio_name t none else d
    if providerOk = false then
      { dir := d1, raised := true, committed := none,
        provider_calls := [some cached_audio_name], played := [] }
    else if playOk = false then
      { dir := d1, raised := true, committed := none,
        provider_calls := [some cached_audio_name], played := [cached_audio_name] }
    else
      { dir := save_metadata d1 cache_id text voice fmt provider_name instructions now t2,
        raised := false, committed := some cache_id,
        provider_calls := [some cached_audio_name], played := [cached_audio_name] }
  else
    { dir := d, raised := !providerOk, committed := none,
      provider_calls := [none], played := [] }

/-! Well-formedness predicates for cache directory states. -/

/-- A real directory never holds two files of the same name. -/
abbrev distinctNames (d : Dir) : Prop := d.Pairwise (fun a b => a.name ≠ b.name)

/-- No metadata record names an audio payload that is itself a *.json
name; true of every record the program writes, since audio payload names
are id.format with format drawn from AUDIO_FORMATS. -/
abbrev goodAudioRefs (d : Dir) : Prop :=
  ∀ f ∈ d, isJsonName f.name = true →
    f.parsed.all (fun m => !isJsonName m.audio_file) = true

/-- Pairwise distinct modification times. -/
abbrev distinctMtimes (l : List File) : Prop := l.Pairwise (fun a b => a.mtime ≠ b.mtime)

/-! General helper lemmas. -/

/-- Filtering by a predicate that every find? hit satisfies does not change
the result of find?. -/
theorem find?_filter_of_imp {α : Type} {p q : α → Bool} (l : List α)
    (h : ∀ a, p a = true → q a = true) :
    (l.filter q).find? p = l.find? p := by
  induction l with
  | nil => rfl
  | cons a l ih =>
    by_cases hq : q a = true
    · by_cases hp : p a = true
      · simp [List.filter_cons, hq, List.find?, hp]
      · simp only [Bool.not_eq_true] at hp
        simp [List.filter_cons, hq, List.find?, hp, ih]
    · have hp : p a = false := by
        cases hpa : p a with
        | false => rfl
        | true => exact absurd (h a hpa) hq
      simp only [Bool.not_eq_true] at hq
      simp [List.filter_cons, hq, List.find?, hp, ih]

/-- Loading the file just written returns exactly what was written. -/
theorem load_metadata_writeFile_self (d : Dir) (name : String) (t : Nat)
    (p : Option Metadata) : load_metadata (writeFile d name t p) name = p := by
  unfold load_metadata writeFile unlink
  rw [List.find?_append]
  have h1 : (d.filter (fun f => f.name ≠ name)).find? (fun f => f.name = name) = none := by
    rw [List.find?_eq_none]
    intro x hx
    have hx2 := (List.mem_filter.mp hx).2
    simp only [decide_eq_true_eq] at hx2 ⊢
    exact hx2
  rw [h1]
  simp [List.find?]

/-- Loading a name other than the one just written is unaffected by the
write. -/
theorem load_metadata_writeFile_other (d : Dir) (name other : String) (t : Nat)
    (p : Option Metadata) (h : other ≠ name) :
    load_metadata (writeFile d name t p) other = load_metadata d other := by
  unfold load_metadata writeFile unlink
  rw [List.find?_append]
  have h1 : (d.filter (fun f => f.name ≠ name)).find? (fun f => f.name = other) =
      d.find? (fun f => f.name = other) := by
    apply find?_filter_of_imp
    intro a ha
    simp only [decide_eq_true_eq] at ha ⊢
    rw [ha]; exact h
  rw [h1]
  have h2 : List.find? (fun f => f.name = other) [(⟨name, t, p⟩ : File)] = none := by
    have hne : decide (name = other) = false := by
      simp only [decide_eq_false_iff_not]
      exact fun hc => h hc.symm
    simp [List.find?, hne]
  rw [h2]
  cases d.find? (fun f => f.name = other) <;> rfl

/-! C6 : commitMetadata then getById round trip. -/

/-- C6: for every id, text, voice, format, provider and instructions,
save_metadata followed by get_by_id with the same id returns a record
whose fields equal what was committed, whose audio_file field is
id.format, and whose timestamp is the instant injected at save time. -/
theorem save_then_get_roundtrip (d : Dir) (cache_id text : String)
    (voice : Option String) (format provider : String)
    (instructions : Option String) (now : String) (t : Nat) :
    get_by_id (save_metadata d cache_id text voice format provider instructions now t)
        cache_id =
      some { id := cache_id, timestamp := now, text := text, voice := voice,
             format := format, provider := provider, instructions := instructions,
             audio_file := cache_id ++ "." ++ format } := by
  unfold get_by_id save_metadata
  exact load_metadata_writeFile_self ..

/-! C3 : CloudProvider voice and format validation. -/

/-- C3: OpenAITTSProvider.synthesize resolves falsy voice and format to the
fixed defaults; a resolved voice outside VOICES fails with a ValueError
naming it and listing VOICES; with a valid voice, a resolved format
outside AUDIO_FORMATS fails with a ValueError naming it and listing
AUDIO_FORMATS; both failures are returned by the validation prefix of the
function, before any API request value is produced; absent voice and
format yield the defaults and an ok request, never a validation error. -/
theorem openai_validate_spec (text : String)
    (voice instructions response_format : Option String) :
    (orDefault voice DEFAULT_VOICE ∉ VOICES →
      openai_validate text voice instructions response_format =
        .error (.invalidVoice (orDefault voice DEFAULT_VOICE) VOICES)) ∧
    (orDefault voice DEFAULT_VOICE ∈ VOICES →
      orDefault response_format DEFAULT_FORMAT ∉ AUDIO_FORMATS →
      openai_validate text voice instructions response_format =
        .error (.invalidFormat (orDefault response_format DEFAULT_FORMAT) AUDIO_FORMATS)) ∧
    (falsy voice = true → falsy response_format = true →
      openai_validate text voice instructions response_format =
        .ok { model := API_MODEL, voice := DEFAULT_VOICE, input := text,
              response_format := DEFAULT_FORMAT,
              instructions := if falsy instructions then none else instructions }) := by
  refine ⟨?_, ?_, ?_⟩
  · intro h
    unfold openai_validate
    rw [if_neg h]
  · intro h1 h2
    unfold openai_validate
    rw [if_pos h1, if_neg h2]
  · intro hv hf
    have h1 : orDefault voice DEFAULT_VOICE = DEFAULT_VOICE := by
      cases voice with
      | none => rfl
      | some s =>
        simp only [falsy, decide_eq_true_eq] at hv
        simp [orDefault, hv]
    have h2 : orDefault response_format DEFAULT_FORMAT = DEFAULT_FORMAT := by
      cases response_format with
      | none => rfl
      | some s =>
        simp only [falsy, decide_eq_true_eq] at hf
        simp [orDefault, hf]
    unfold openai_validate
    rw [h1, h2, if_pos (by decide), if_pos (by decide)]

def exText : String := "hello"

def exBadVoice : String := "robot"

def exBadFormat : String := "ogg"

def exInstr : String := "cheerful"

/-- Witness for C3 at concrete inputs: an unknown voice is rejected with
the voice list, a known voice with an unknown format is rejected with the
format list, and absent voice and format give an ok request built from the
defaults. -/
theorem openai_validate_spec_witness :
    openai_validate exText (some exBadVoice) none none =
      .error (.invalidVoice exBadVoice VOICES) ∧
    openai_validate exText (some DEFAULT_VOICE) none (some exBadFormat) =
      .error (.invalidFormat exBadFormat AUDIO_FORMATS) ∧
    openai_validate exText none (some exInstr) none =
      .ok { model := API_MODEL, voice := DEFAULT_VOICE, input := exText,
            response_format := DEFAULT_FORMAT, instructions := some exInstr } := by
  refine ⟨?_, ?_, ?_⟩
  · exact (openai_validate_spec exText (some exBadVoice) none none).1 (by decide)
  · exact (openai_validate_spec exText (some DEFAULT_VOICE) none (some exBadFormat)).2.1
      (by decide) (by decide)
  · exact (openai_validate_spec exText none (some exInstr) none).2.2 (by decide) (by decide)

/-! C8 : id allocation. -/

/-- The hex digits of the canonical uuid4 text form. -/
def hexChars : List Char := "0123456789abcdef".data

/-- Every character of the string is a lowercase hex digit. -/
def isHexString (s : String) : Bool := s.data.all (fun c => decide (c ∈ hexChars))

/-- K successive calls of generate_cache_path within one process, the K
uuid4 draws injected as a list. -/
def allocate_calls (cacheDir : String) (uuidDraws : List String) (format : String) :
    List (String × String) :=
  uuidDraws.map (fun u => generate_cache_path cacheDir u format)

/-- C8: K calls of generate_cache_path yield K results; the ids are
pairwise distinct whenever the injected uuid4 draws differ on their first
eight characters (the only distinctness uuid4 provides, with negligible
collision probability); each id is the 8-character prefix of its draw,
hence 8 hex characters for canonical draws; and each audio path is the
cache directory joined with id.format. -/
theorem allocate_distinct_ids (cacheDir format : String) (uuidDraws : List String)
    (hdis : uuidDraws.Pairwise (fun a b => strTake a 8 ≠ strTake b 8))
    (hlen : ∀ u ∈ uuidDraws, 8 ≤ u.length)
    (hhex : ∀ u ∈ uuidDraws, isHexString (strTake u 8) = true) :
    (allocate_calls cacheDir uuidDraws format).length = uuidDraws.length ∧
    ((allocate_calls cacheDir uuidDraws format).map Prod.fst).Pairwise
      (fun a b => a ≠ b) ∧
    (∀ p ∈ allocate_calls cacheDir uuidDraws format,
      p.1.length = 8 ∧ isHexString p.1 = true ∧
      p.2 = cacheDir ++ "/" ++ (p.1 ++ "." ++ format)) := by
  refine ⟨by simp [allocate_calls], ?_, ?_⟩
  · have hmap : (allocate_calls cacheDir uuidDraws format).map Prod.fst =
        uuidDraws.map (fun u => strTake u 8) := by
      simp [allocate_calls, generate_cache_path]
    rw [hmap, List.pairwise_map]
    exact hdis
  · intro p hp
    obtain ⟨u, hu, hgen⟩ := List.mem_map.mp hp
    have h1 : p.1 = strTake u 8 := by rw [← hgen]; rfl
    have h2 : p.2 = cacheDir ++ "/" ++ (strTake u 8 ++ "." ++ format) := by
      rw [← hgen]; rfl
    refine ⟨?_, ?_, ?_⟩
    · rw [h1]
      show (u.data.take 8).length = 8
      rw [List.length_take]
      have h3 : 8 ≤ u.data.length := hlen u hu
      omega
    · rw [h1]; exact hhex u hu
    · rw [h2, h1]

def exCacheDir : String := "/home/user/.osay/audios"

def exUuid1 : String := "a1b2c3d4-0000-4000-8000-000000000000"

def exUuid2 : String := "deadbeef-1111-4111-9111-111111111111"

/-- Witness for C8 at two concrete uuid4 draws. -/
theorem allocate_distinct_ids_witness :
    (allocate_calls exCacheDir [exUuid1, exUuid2] DEFAULT_FORMAT).length = 2 ∧
    ((allocate_calls exCacheDir [exUuid1, exUuid2] DEFAULT_FORMAT).map Prod.fst).Pairwise
      (fun a b => a ≠ b) := by
  have h := allocate_distinct_ids exCacheDir DEFAULT_FORMAT [exUuid1, exUuid2]
    (by decide) (by decide) (by decide)
  exact ⟨h.1, h.2.1⟩

/-! C9 : the fate of the ephemeral temp file of CloudProvider. -/

def exTmpName : String := "/tmp/tmpabc123.flac"

def exTmpOther : String := "/tmp/unrelated.txt"

def exFlac : String := "flac"

/-- Counterexample to C9 as stated: the temp file creation and the
response.stream_to_file write sit outside the try/finally, so when
streaming raises (surfaced as a RuntimeError, a non-forced-termination
exit) — or is interrupted — after the file was created, the function
exits with the temp file still present in the temp area: it survives the
call. -/
theorem ephemeral_temp_leaks_when_streaming_fails :
    (openai_synth_ephemeral [exTmpOther] exTmpName exFlac StreamRun.raises
        ProcRun.ok ProcRun.ok ProcRun.ok).1 = [exTmpName, exTmpOther] ∧
    exTmpName ∈ (openai_synth_ephemeral [exTmpOther] exTmpName exFlac StreamRun.raises
        ProcRun.ok ProcRun.ok ProcRun.ok).1 ∧
    (openai_synth_ephemeral [exTmpOther] exTmpName exFlac StreamRun.raises
        ProcRun.ok ProcRun.ok ProcRun.ok).2 = EphemeralExit.streamRaise ∧
    exTmpName ∈ (openai_synth_ephemeral [exTmpOther] exTmpName exFlac StreamRun.interrupt
        ProcRun.ok ProcRun.ok ProcRun.ok).1 := by decide

/-- C9 amended: once streaming into the temp file has completed, the
finally clause removes it on every exit path out of the playback phase —
success, playback failure of either player, and interruption of the wait —
so the temp area after the call equals the temp area before it, and the
propagated outcome follows the player outcomes as the code stages them;
but when streaming raises or is interrupted after the temp file was
created, the function exits abnormally with the temp file still present,
since creation and streaming lie outside the try/finally. -/
theorem ephemeral_temp_removed_amended (tempArea : List String) (tmpName : String)
    (response_format : String) (streaming : StreamRun) (a f b : ProcRun) :
    (streaming = StreamRun.ok →
      (openai_synth_ephemeral tempArea tmpName response_format streaming a f b).1 =
        tempArea) ∧
    (streaming = StreamRun.ok → tmpName ∉ tempArea →
      tmpName ∉ (openai_synth_ephemeral tempArea tmpName response_format streaming a f b).1) ∧
    (streaming ≠ StreamRun.ok →
      (openai_synth_ephemeral tempArea tmpName response_format streaming a f b).1 =
        tmpName :: tempArea ∧
      tmpName ∈ (openai_synth_ephemeral tempArea tmpName response_format streaming a f b).1 ∧
      (openai_synth_ephemeral tempArea tmpName response_format streaming a f b).2 ≠
        EphemeralExit.ok) ∧
    (streaming = StreamRun.ok → response_format ∈ AFPLAY_FORMATS →
      (openai_synth_ephemeral tempArea tmpName response_format streaming a f b).2 =
        pyExit (runProc a)) ∧
    (streaming = StreamRun.ok → response_format ∉ AFPLAY_FORMATS → f = ProcRun.ok →
      (openai_synth_ephemeral tempArea tmpName response_format streaming a f b).2 =
        EphemeralExit.ok) ∧
    (streaming = StreamRun.ok → response_format ∉ AFPLAY_FORMATS →
      (f = ProcRun.exitErr ∨ f = ProcRun.missing) →
      (openai_synth_ephemeral tempArea tmpName response_format streaming a f b).2 =
        pyExit (runProc b)) ∧
    (streaming = StreamRun.ok → response_format ∉ AFPLAY_FORMATS → f = ProcRun.interrupt →
      (openai_synth_ephemeral tempArea tmpName response_format streaming a f b).2 =
        EphemeralExit.playExc PExc.keyboardInterrupt) := by
  refine ⟨?_, ?_, ?_, ?_, ?_, ?_, ?_⟩
  · intro hs
    subst hs
    show (tmpName :: tempArea).erase tmpName = tempArea
    exact List.erase_cons_head ..
  · intro hs hn
    subst hs
    show tmpName ∉ (tmpName :: tempArea).erase tmpName
    rw [List.erase_cons_head ..]
    exact hn
  · intro hs
    cases streaming with
    | ok => exact absurd rfl hs
    | raises =>
      exact ⟨rfl, List.mem_cons_self .., fun hc => EphemeralExit.noConfusion hc⟩
    | interrupt =>
      exact ⟨rfl, List.mem_cons_self .., fun hc => EphemeralExit.noConfusion hc⟩
  · intro hs hf
    subst hs
    show pyExit (playback_block response_format a f b) = pyExit (runProc a)
    unfold playback_block
    rw [if_pos hf]
  · intro hs hf hok
    subst hs
    show pyExit (playback_block response_format a f b) = EphemeralExit.ok
    unfold playback_block
    rw [if_neg hf, hok]
    rfl
  · intro hs hf hff
    subst hs
    show pyExit (playback_block response_format a f b) = pyExit (runProc b)
    unfold playback_block
    rw [if_neg hf]
    rcases hff with h | h <;> rw [h] <;> rfl
  · intro hs hf hint
    subst hs
    show pyExit (playback_block response_format a f b) =
      EphemeralExit.playExc PExc.keyboardInterrupt
    unfold playback_block
    rw [if_neg hf, hint]
    rfl

/-- Witness for the amended C9: with streaming completed, a non-afplay
format, ffplay not installed and the afplay fallback interrupted, the temp
file is still removed and the interruption propagates; with streaming
interrupted instead, the temp file survives the call. -/
theorem ephemeral_temp_removed_amended_witness :
    (openai_synth_ephemeral [exTmpOther] exTmpName exFlac StreamRun.ok ProcRun.ok
        ProcRun.missing ProcRun.interrupt).1 = [exTmpOther] ∧
    exTmpName ∉ (openai_synth_ephemeral [exTmpOther] exTmpName exFlac StreamRun.ok
        ProcRun.ok ProcRun.missing ProcRun.interrupt).1 ∧
    (openai_synth_ephemeral [exTmpOther] exTmpName exFlac StreamRun.ok ProcRun.ok
        ProcRun.missing ProcRun.interrupt).2 =
      EphemeralExit.playExc PExc.keyboardInterrupt ∧
    exTmpName ∈ (openai_synth_ephemeral [exTmpOther] exTmpName exFlac StreamRun.interrupt
        ProcRun.ok ProcRun.ok ProcRun.ok).1 := by
  have h := ephemeral_temp_removed_amended [exTmpOther] exTmpName exFlac StreamRun.ok
    ProcRun.ok ProcRun.missing ProcRun.interrupt
  have h2 := ephemeral_temp_removed_amended [exTmpOther] exTmpName exFlac
    StreamRun.interrupt ProcRun.ok ProcRun.ok ProcRun.ok
  refine ⟨h.1 rfl, h.2.1 rfl (by decide), ?_, (h2.2.2.1 (by decide)).2.1⟩
  exact h.2.2.2.2.2.1 rfl (by decide) (Or.inr rfl)

/-! C5 : a given output file bypasses the cache entirely. -/

/-- C5: when output_file is truthy, TTSService.synthesize delegates a
single provider call with that target and does nothing else, whatever the
value of the cache flag: the cache directory is returned unchanged (so
the set of metadata records is unchanged), no metadata is committed, and
the service plays nothing; an exception propagates exactly when the
provider raises. -/
theorem speak_output_file_bypasses_cache
    (d : Dir) (pdv : Option String) (pname fresh_uuid now : String) (t t2 : Nat)
    (providerOk providerWrites playOk : Bool) (text : String)
    (output_file voice instructions response_format : Option String) (cache : Bool)
    (h : falsy output_file = false) :
    service_synthesize d pdv pname fresh_uuid now t t2 providerOk providerWrites playOk
        text output_file voice instructions response_format cache =
      { dir := d, raised := !providerOk, committed := none,
        provider_calls := [output_file], played := [] } := by
  simp only [service_synthesize]
  rw [if_pos h]

def exOutFile : String := "out.mp3"

def exProviderName : String := "OpenAITTSProvider"

def exNow : String := "2026-10-12T10:00:00"

/-- Witness for C5 at a concrete call with the cache flag set. -/
theorem speak_output_file_bypasses_cache_witness :
    service_synthesize [] (some DEFAULT_VOICE) exProviderName exUuid1 exNow 1 2
        true true true exText (some exOutFile) none none none true =
      { dir := [], raised := false, committed := none,
        provider_calls := [some exOutFile], played := [] } := by
  exact speak_output_file_bypasses_cache [] (some DEFAULT_VOICE) exProviderName exUuid1
    exNow 1 2 true true true exText (some exOutFile) none none none true (by decide)

/-! C4 : AudioCache.play failure behavior. -/

def exId : String := "a1b2c3d4"

def exMeta : Metadata :=
  { id := exId, timestamp := exNow, text := exText, voice := some DEFAULT_VOICE,
    format := DEFAULT_FORMAT, provider := exProviderName, instructions := none,
    audio_file := exId ++ "." ++ DEFAULT_FORMAT }

def exDirPlay : Dir :=
  [⟨exId ++ jsonExt, 5, some exMeta⟩, ⟨exId ++ "." ++ DEFAULT_FORMAT, 4, none⟩]

def exDirNoAudio : Dir := [⟨exId ++ jsonExt, 5, some exMeta⟩]

/-- Counterexample to C4 as stated: with the entry present and its payload
present, a playback attempt on a host where the afplay binary is not
installed raises FileNotFoundError out of AudioCache.play instead of
returning a boolean, because the code catches only
subprocess.CalledProcessError around the subprocess.run call. -/
theorem play_throws_when_player_missing :
    play exDirPlay ProcRun.missing exId = .error .fileNotFoundError := by decide

/-- C4 amended: AudioCache.play returns false, without raising, when the
entry is not found, when the audio payload file is missing, and when the
playback process exits nonzero, and these three causes are
indistinguishable to the caller (all produce the same value false); it
returns a boolean on every call in which the afplay binary runs to an
exit code; but when the subprocess mechanism itself fails (binary missing
or the wait interrupted) the exception propagates. -/
theorem play_amended (d : Dir) (afplay : ProcRun) (cache_id : String) :
    (get_by_id d cache_id = none → play d afplay cache_id = .ok false) ∧
    (∀ m, get_by_id d cache_id = some m → fileExists d m.audio_file = false →
      play d afplay cache_id = .ok false) ∧
    (∀ m, get_by_id d cache_id = some m → fileExists d m.audio_file = true →
      afplay = ProcRun.exitErr → play d afplay cache_id = .ok false) ∧
    (afplay = ProcRun.ok ∨ afplay = ProcRun.exitErr →
      ∃ b : Bool, play d afplay cache_id = .ok b) := by
  refine ⟨?_, ?_, ?_, ?_⟩
  · intro h
    unfold play
    rw [h]
  · intro m hm hex
    unfold play
    rw [hm]
    simp [hex]
  · intro m hm hex haf
    unfold play
    rw [hm, haf]
    simp [hex]
  · intro hok
    unfold play
    cases hgb : get_by_id d cache_id with
    | none => exact ⟨false, rfl⟩
    | some m =>
      by_cases hex : fileExists d m.audio_file = true
      · rcases hok with h | h <;> rw [h] <;> simp [hex]
      · simp only [Bool.not_eq_true] at hex
        exact ⟨false, by simp [hex]⟩

/-- Witness for the amended C4 at concrete states: nonzero player exit,
missing payload, and missing entry all give ok false. -/
theorem play_amended_witness :
    play exDirPlay ProcRun.exitErr exId = .ok false ∧
    play exDirNoAudio ProcRun.ok exId = .ok false ∧
    play [] ProcRun.ok exId = .ok false := by
  refine ⟨?_, ?_, ?_⟩
  · exact (play_amended exDirPlay ProcRun.exitErr exId).2.2.1 exMeta (by decide)
      (by decide) rfl
  · exact (play_amended exDirNoAudio ProcRun.ok exId).2.1 exMeta (by decide) (by decide)
  · exact (play_amended [] ProcRun.ok exId).1 (by decide)

/-! C7 : malformed metadata records are skipped. -/

/-- In a directory without duplicate names, loading a file by its own name
returns its parse result. -/
theorem load_metadata_mem (d : Dir) (g : File) (hd : distinctNames d) (hg : g ∈ d) :
    load_metadata d g.name = g.parsed := by
  unfold load_metadata
  induction d with
  | nil => cases hg
  | cons a rest ih =>
    rcases List.mem_cons.mp hg with h | h
    · subst h
      simp [List.find?]
    · have hne : a.name ≠ g.name := List.rel_of_pairwise_cons hd h
      have hdec : decide (a.name = g.name) = false := by simp [hne]
      simp only [List.find?, hdec]
      exact ih (List.pairwise_cons.mp hd).2 h

/-- Every element of the sorted glob is a file of the directory. -/
theorem mem_sorted_mem_dir {d : Dir} {g : File}
    (hg : g ∈ sortedByMtimeDesc (globJson d)) : g ∈ d :=
  List.mem_of_mem_filter
    ((List.perm_insertionSort mtimeDescRel (globJson d)).mem_iff.mp hg)

/-- In a directory without duplicate names, list_cached is the parse
results of the newest-first sorted records, malformed ones dropped. -/
theorem list_cached_eq_filterMap (d : Dir) (hd : distinctNames d) :
    list_cached d = (sortedByMtimeDesc (globJson d)).filterMap File.parsed := by
  unfold list_cached
  apply List.filterMap_congr
  intro g hg
  exact load_metadata_mem d g hd (mem_sorted_mem_dir hg)

/-- Counting the parse survivors equals counting the parseable files. -/
theorem length_filterMap_parsed (l : List File) :
    (l.filterMap File.parsed).length = (l.filter (fun g => g.parsed.isSome)).length := by
  induction l with
  | nil => rfl
  | cons a rest ih =>
    cases hp : a.parsed with
    | none => simp [List.filterMap_cons, List.filter_cons, hp, ih]
    | some m => simp [List.filterMap_cons, List.filter_cons, hp, ih]

/-- C7: a metadata file whose content does not parse is skipped by
list_cached (the listing is exactly the parse results of the newest-first
sorted records, and its length counts exactly the parseable records, so
the malformed one contributes nothing and enumeration is not halted),
every record that parses is still listed, and get_by_id on the malformed
file yields none rather than an error. -/
theorem malformed_record_tolerated (d : Dir) (f : File) (id0 : String)
    (hd : distinctNames d) (hf : f ∈ d) (_hjson : isJsonName f.name = true)
    (hbad : f.parsed = none) (hid : f.name = id0 ++ jsonExt) :
    list_cached d = (sortedByMtimeDesc (globJson d)).filterMap File.parsed ∧
    (∀ g ∈ globJson d, ∀ m, g.parsed = some m → m ∈ list_cached d) ∧
    (list_cached d).length = ((globJson d).filter (fun g => g.parsed.isSome)).length ∧
    get_by_id d id0 = none := by
  have hlc := list_cached_eq_filterMap d hd
  refine ⟨hlc, ?_, ?_, ?_⟩
  · intro g hg m hm
    rw [hlc]
    exact List.mem_filterMap.mpr
      ⟨g, (List.perm_insertionSort mtimeDescRel (globJson d)).mem_iff.mpr hg, hm⟩
  · rw [hlc, length_filterMap_parsed]
    exact ((List.perm_insertionSort mtimeDescRel (globJson d)).filter _).length_eq
  · unfold get_by_id
    rw [← hid, load_metadata_mem d f hd hf]
    exact hbad

def exId2 : String := "ffffeeee"

def exMeta2 : Metadata :=
  { id := exId2, timestamp := exNow, text := exText, voice := none,
    format := DEFAULT_FORMAT, provider := exProviderName, instructions := none,
    audio_file := exId2 ++ "." ++ DEFAULT_FORMAT }

def exBadId : String := "00bad000"

def exBadFile : File := ⟨exBadId ++ jsonExt, 7, none⟩

def exDirMal : Dir :=
  [⟨exId ++ jsonExt, 10, some exMeta⟩, exBadFile,
   ⟨exId2 ++ jsonExt, 5, some exMeta2⟩, ⟨exId ++ "." ++ DEFAULT_FORMAT, 4, none⟩]

/-- Witness for C7 at a concrete directory holding two valid records, one
malformed record and one audio payload. -/
theorem malformed_record_tolerated_witness :
    get_by_id exDirMal exBadId = none ∧
    (list_cached exDirMal).length = 2 ∧
    exMeta ∈ list_cached exDirMal := by
  have h := malformed_record_tolerated exDirMal exBadFile exBadId (by decide) (by decide)
    (by decide) (by decide) (by decide)
  refine ⟨h.2.2.2, ?_, ?_⟩
  · rw [h.2.2.1]
    decide
  · exact h.2.1 ⟨exId ++ jsonExt, 10, some exMeta⟩ (by decide) exMeta (by decide)

/-! C10 : on the cache-then-play path, metadata is committed only after
playback succeeds. -/

/-- Appending the glob suffix yields a name the glob matches. -/
theorem isJsonName_append_ext (s : String) : isJsonName (s ++ jsonExt) = true := by
  obtain ⟨l⟩ := s
  apply decide_eq_true
  show (l ++ jsonExt.data).drop ((l ++ jsonExt.data).length - jsonExt.data.length) =
    jsonExt.data
  rw [List.length_append]
  have h : l.length + jsonExt.data.length - jsonExt.data.length = l.length := by omega
  rw [h]
  exact List.drop_left l _

/-- A glob-matched name never equals a non-matched one. -/
theorem isJson_ne {a b : String} (ha : isJsonName a = true) (hb : isJsonName b = false) :
    a ≠ b := by
  intro hc
  rw [hc, hb] at ha
  cases ha

/-- A name that no file of the directory has loads to none. -/
theorem load_metadata_not_exists (d : Dir) (n : String)
    (h : fileExists d n = false) : load_metadata d n = none := by
  unfold load_metadata
  have hf : d.find? (fun f => f.name = n) = none := by
    rw [List.find?_eq_none]
    intro x hx
    unfold fileExists at h
    rw [List.any_eq_false] at h
    exact h x hx
  rw [hf]

/-- Writing an audio payload (a name the glob does not match) leaves the
glob of the directory unchanged. -/
theorem globJson_writeFile_audio (d : Dir) (name : String) (t : Nat)
    (p : Option Metadata) (hn : isJsonName name = false) :
    globJson (writeFile d name t p) = globJson d := by
  unfold globJson writeFile unlink
  rw [List.filter_append]
  have h2 : List.filter (fun f => isJsonName f.name) [(⟨name, t, p⟩ : File)] = [] := by
    simp [List.filter, hn]
  rw [h2, List.append_nil, List.filter_filter]
  apply List.filter_congr
  intro f _
  cases hj : isJsonName f.name with
  | false => rfl
  | true =>
    have hne : f.name ≠ name := isJson_ne hj hn
    simp [hne]

/-- Writing an audio payload leaves list_cached unchanged. -/
theorem list_cached_writeFile_audio (d : Dir) (name : String) (t : Nat)
    (p : Option Metadata) (hn : isJsonName name = false) :
    list_cached (writeFile d name t p) = list_cached d := by
  unfold list_cached
  rw [globJson_writeFile_audio d name t p hn]
  apply List.filterMap_congr
  intro g hg
  apply load_metadata_writeFile_other
  have hgj : isJsonName g.name = true := by
    have hmem : g ∈ globJson d :=
      (List.perm_insertionSort mtimeDescRel (globJson d)).mem_iff.mp hg
    exact (List.mem_filter.mp hmem).2
  exact isJson_ne hgj hn

/-- The file just written exists. -/
theorem fileExists_writeFile_self (d : Dir) (name : String) (t : Nat)
    (p : Option Metadata) : fileExists (writeFile d name t p) name = true := by
  unfold fileExists writeFile unlink
  rw [List.any_append]
  simp [List.any]

/-- C10: on the cache-then-play path (no output file, cache flag set),
with a fresh slot id and an audio name the glob does not match, metadata
is committed exactly when the provider synthesized and the playback
subprocess exited zero; when either fails, the exception propagates, no
metadata for the slot id is resolvable, the listing is what it was before
the call, and, whenever the audio payload had been written, it remains in
the directory as an orphan; when both succeed, no exception propagates
and the service played exactly the freshly written file. -/
theorem metadata_committed_only_after_playback
    (d : Dir) (pdv : Option String) (pname fresh_uuid now : String) (t t2 : Nat)
    (providerOk providerWrites playOk : Bool) (text : String)
    (output_file voice instructions response_format : Option String)
    (r : SpeakResult) (cache_id aname : String)
    (hr : service_synthesize d pdv pname fresh_uuid now t t2 providerOk providerWrites
        playOk text output_file voice instructions response_format true = r)
    (hcid : cache_id = strTake fresh_uuid 8)
    (haname : aname = cache_id ++ "." ++ orDefault response_format DEFAULT_FORMAT)
    (hout : falsy output_file = true)
    (hfresh : fileExists d (cache_id ++ jsonExt) = false)
    (hfmt : isJsonName aname = false) :
    r.committed = (if providerOk && playOk then some cache_id else none) ∧
    ((providerOk && playOk) = false →
      r.raised = true ∧
      get_by_id r.dir cache_id = none ∧
      list_cached r.dir = list_cached d ∧
      ((providerOk || providerWrites) = true → fileExists r.dir aname = true)) ∧
    ((providerOk && playOk) = true →
      r.raised = false ∧ r.committed = some cache_id ∧ r.played = [aname]) := by
  subst hcid haname
  subst hr
  simp only [service_synthesize]
  rw [if_neg (by simp [hout])]
  rw [if_pos trivial]
  have hjson_ne : (strTake fresh_uuid 8 ++ jsonExt) ≠
      (strTake fresh_uuid 8 ++ "." ++ orDefault response_format DEFAULT_FORMAT) :=
    isJson_ne (isJsonName_append_ext _) hfmt
  cases providerOk with
  | false =>
    cases providerWrites with
    | false =>
      refine ⟨rfl, fun _ => ⟨rfl, ?_, rfl, fun hc => absurd hc (by decide)⟩,
        fun hc => absurd hc (by simp)⟩
      exact load_metadata_not_exists d _ hfresh
    | true =>
      refine ⟨rfl, fun _ => ⟨rfl, ?_, ?_, fun _ => ?_⟩, fun hc => absurd hc (by simp)⟩
      · show load_metadata (writeFile d _ t none) (strTake fresh_uuid 8 ++ jsonExt) = none
        rw [load_metadata_writeFile_other d _ _ t none hjson_ne]
        exact load_metadata_not_exists d _ hfresh
      · exact list_cached_writeFile_audio d _ t none hfmt
      · exact fileExists_writeFile_self d _ t none
  | true =>
    cases playOk with
    | false =>
      refine ⟨rfl, fun _ => ⟨rfl, ?_, ?_, fun _ => ?_⟩, fun hc => absurd hc (by decide)⟩
      · show load_metadata (writeFile d _ t none) (strTake fresh_uuid 8 ++ jsonExt) = none
        rw [load_metadata_writeFile_other d _ _ t none hjson_ne]
        exact load_metadata_not_exists d _ hfresh
      · exact list_cached_writeFile_audio d _ t none hfmt
      · exact fileExists_writeFile_self d _ t none
    | true =>
      exact ⟨rfl, fun hc => absurd hc (by decide), fun _ => ⟨rfl, rfl, rfl⟩⟩

/-- Witness for C10: with an empty starting directory and a playback
failure, no metadata is committed, the id resolves to nothing, the listing
stays empty, and the written audio payload survives as an orphan. -/
theorem metadata_committed_only_after_playback_witness :
    (service_synthesize [] (some DEFAULT_VOICE) exProviderName exUuid1 exNow 1 2
        true true false exText none none none none true).committed = none ∧
    get_by_id (service_synthesize [] (some DEFAULT_VOICE) exProviderName exUuid1 exNow 1 2
        true true false exText none none none none true).dir (strTake exUuid1 8) = none ∧
    fileExists (service_synthesize [] (some DEFAULT_VOICE) exProviderName exUuid1 exNow 1 2
        true true false exText none none none none true).dir
      (strTake exUuid1 8 ++ "." ++ DEFAULT_FORMAT) = true := by
  have h := metadata_committed_only_after_playback [] (some DEFAULT_VOICE) exProviderName
    exUuid1 exNow 1 2 true true false exText none none none none
    (service_synthesize [] (some DEFAULT_VOICE) exProviderName exUuid1 exNow 1 2
      true true false exText none none none none true)
    (strTake exUuid1 8) (strTake exUuid1 8 ++ "." ++ DEFAULT_FORMAT)
    rfl rfl rfl (by decide) (by decide) (by decide)
  have h2 := h.2.1 (by decide)
  exact ⟨by rw [h.1]; rfl, h2.2.1, h2.2.2.2 (by decide)⟩

/-! Eviction lemmas shared by the bounded-retention and pairing claims. -/

theorem filter_swap {α : Type} (p q : α → Bool) (l : List α) :
    (l.filter q).filter p = (l.filter p).filter q := by
  rw [List.filter_filter, List.filter_filter]
  apply List.filter_congr
  intro x _
  exact Bool.and_comm (p x) (q x)

theorem fileExists_of_mem {d : Dir} {f : File} (h : f ∈ d) :
    fileExists d f.name = true := by
  unfold fileExists
  rw [List.any_eq_true]
  exact ⟨f, h, by simp⟩

theorem mem_unlink_of_ne {d : Dir} {f : File} {n : String} (hf : f ∈ d)
    (hne : f.name ≠ n) : f ∈ unlink d n :=
  List.mem_filter.mpr ⟨hf, by simp [hne]⟩

theorem name_ne_of_mem_unlink {d : Dir} {f : File} {n : String}
    (h : f ∈ unlink d n) : f.name ≠ n := by
  have h2 := (List.mem_filter.mp h).2
  simpa using h2

theorem unlink_subset {d : Dir} {n : String} {x : File} (hx : x ∈ unlink d n) :
    x ∈ d :=
  List.mem_of_mem_filter hx

/-- Unlinking a metadata record filters exactly that name out of the glob. -/
theorem globJson_unlink_json (d : Dir) (n : String) :
    globJson (unlink d n) = (globJson d).filter (fun g => g.name ≠ n) := by
  unfold globJson unlink
  exact filter_swap ..

/-- Unlinking an audio payload (not a *.json name) leaves the glob alone. -/
theorem globJson_unlink_audio (d : Dir) (n : String) (hn : isJsonName n = false) :
    globJson (unlink d n) = globJson d := by
  rw [globJson_unlink_json]
  apply List.filter_eq_self.mpr
  intro g hg
  have hgj : isJsonName g.name = true := (List.mem_filter.mp hg).2
  simp [isJson_ne hgj hn]

/-- One eviction iteration, fully characterized: it succeeds, shrinks the
directory, keeps names unique, removes exactly the record itself from the
glob, leaves no file carrying the record name or its audio payload name,
and keeps every other metadata record. -/
theorem evictOne_spec (d : Dir) (old : File)
    (hd : distinctNames d) (hold : old ∈ d) (hjson : isJsonName old.name = true)
    (href : old.parsed.all (fun m => !isJsonName m.audio_file) = true) :
    ∃ d2, evictOne d old = .ok d2 ∧
      (∀ x ∈ d2, x ∈ d) ∧
      distinctNames d2 ∧
      globJson d2 = (globJson d).filter (fun g => g.name ≠ old.name) ∧
      (∀ f ∈ d2, f.name ≠ old.name) ∧
      (∀ m, old.parsed = some m → ∀ f ∈ d2, f.name ≠ m.audio_file) ∧
      (∀ g ∈ d, isJsonName g.name = true → g.name ≠ old.name → g ∈ d2) := by
  have hload : load_metadata d old.name = old.parsed := load_metadata_mem d old hd hold
  cases hp : old.parsed with
  | none =>
    have hdi : evict_intermediate d old = d := by
      unfold evict_intermediate
      rw [hload, hp]
    have hstep : evictOne d old = .ok (unlink d old.name) := by
      unfold evictOne unlinkE
      rw [hdi]
      simp [fileExists_of_mem hold]
    refine ⟨unlink d old.name, hstep, fun x hx => unlink_subset hx,
      List.Pairwise.sublist (List.filter_sublist d) hd,
      globJson_unlink_json d old.name,
      fun f hf => name_ne_of_mem_unlink hf, ?_, ?_⟩
    · intro m hm
      exact Option.noConfusion hm
    · intro g hg _ hgne
      exact mem_unlink_of_ne hg hgne
  | some m0 =>
    have haud : isJsonName m0.audio_file = false := by
      rw [hp] at href
      simpa using href
    have hne_oldaudio : old.name ≠ m0.audio_file := isJson_ne hjson haud
    by_cases hex : fileExists d m0.audio_file = true
    · have hdi : evict_intermediate d old = unlink d m0.audio_file := by
        unfold evict_intermediate
        simp only [hload, hp]
        rw [if_pos hex]
      have holddi : old ∈ unlink d m0.audio_file := mem_unlink_of_ne hold hne_oldaudio
      have hstep :
          evictOne d old = .ok (unlink (unlink d m0.audio_file) old.name) := by
        unfold evictOne unlinkE
        rw [hdi]
        simp [fileExists_of_mem holddi]
      refine ⟨unlink (unlink d m0.audio_file) old.name, hstep,
        fun x hx => unlink_subset (unlink_subset hx),
        List.Pairwise.sublist ((List.filter_sublist _).trans (List.filter_sublist d)) hd,
        ?_, fun f hf => name_ne_of_mem_unlink hf, ?_, ?_⟩
      · rw [globJson_unlink_json, globJson_unlink_audio d m0.audio_file haud]
      · intro m hm
        have hmm : m = m0 := (Option.some.inj hm).symm
        subst hmm
        intro f hf
        exact name_ne_of_mem_unlink (List.mem_of_mem_filter hf)
      · intro g hg hgj hgne
        exact mem_unlink_of_ne (mem_unlink_of_ne hg (isJson_ne hgj haud)) hgne
    · have hexf : fileExists d m0.audio_file = false := by
        cases hv : fileExists d m0.audio_file with
        | false => rfl
        | true => exact absurd hv hex
      have hdi : evict_intermediate d old = d := by
        unfold evict_intermediate
        simp only [hload, hp]
        rw [if_neg hex]
      have hstep : evictOne d old = .ok (unlink d old.name) := by
        unfold evictOne unlinkE
        rw [hdi]
        simp [fileExists_of_mem hold]
      refine ⟨unlink d old.name, hstep, fun x hx => unlink_subset hx,
        List.Pairwise.sublist (List.filter_sublist d) hd,
        globJson_unlink_json d old.name,
        fun f hf => name_ne_of_mem_unlink hf, ?_, ?_⟩
      · intro m hm
        have hmm : m = m0 := (Option.some.inj hm).symm
        intro f hf hc
        rw [hmm] at hc
        have hexx : fileExists d m0.audio_file = true := by
          unfold fileExists
          rw [List.any_eq_true]
          exact ⟨f, unlink_subset hf, by simp [hc]⟩
        rw [hexx] at hexf
        cases hexf
      · intro g hg _ hgne
        exact mem_unlink_of_ne hg hgne

/-- The whole eviction loop, by induction over the records to evict: it
succeeds, shrinks the directory, keeps names unique, the remaining glob is
the original glob minus exactly the evicted names, and for every evicted
record neither its name nor its audio payload name survives. -/
theorem foldlM_evictOne_spec (l : List File) :
    ∀ d : Dir, distinctNames d →
    (∀ f ∈ l, f ∈ d) →
    (∀ f ∈ l, isJsonName f.name = true) →
    (∀ f ∈ l, f.parsed.all (fun m => !isJsonName m.audio_file) = true) →
    l.Pairwise (fun a b => a.name ≠ b.name) →
    ∃ d2, l.foldlM evictOne d = .ok d2 ∧
      (∀ x ∈ d2, x ∈ d) ∧
      distinctNames d2 ∧
      globJson d2 = (globJson d).filter (fun g => decide (g.name ∉ l.map File.name)) ∧
      (∀ old ∈ l, (∀ f ∈ d2, f.name ≠ old.name) ∧
        ∀ m, old.parsed = some m → ∀ f ∈ d2, f.name ≠ m.audio_file) := by
  induction l with
  | nil =>
    intro d hd _ _ _ _
    refine ⟨d, rfl, fun x hx => hx, hd, ?_, ?_⟩
    · exact (List.filter_eq_self.mpr (fun a _ => by simp)).symm
    · intro o ho
      exact absurd ho (List.not_mem_nil o)
  | cons old rest ih =>
    intro d hd hmem hjson hrefs hpair
    obtain ⟨dstep, hstep, hsub, hdstep, hglob, hname, haudio, hkeep⟩ :=
      evictOne_spec d old hd (hmem old (List.mem_cons_self ..))
        (hjson old (List.mem_cons_self ..)) (hrefs old (List.mem_cons_self ..))
    have hpair' := List.pairwise_cons.mp hpair
    have hmem' : ∀ f ∈ rest, f ∈ dstep := fun f hf =>
      hkeep f (hmem f (List.mem_cons_of_mem _ hf)) (hjson f (List.mem_cons_of_mem _ hf))
        (Ne.symm (hpair'.1 f hf))
    obtain ⟨d2, hfold, hsub2, hd2, hglob2, hprops⟩ :=
      ih dstep hdstep hmem' (fun f hf => hjson f (List.mem_cons_of_mem _ hf))
        (fun f hf => hrefs f (List.mem_cons_of_mem _ hf)) hpair'.2
    refine ⟨d2, ?_, fun x hx => hsub x (hsub2 x hx), hd2, ?_, ?_⟩
    · show List.foldlM evictOne d (old :: rest) = .ok d2
      rw [List.foldlM_cons, hstep]
      show rest.foldlM evictOne dstep = .ok d2
      exact hfold
    · rw [hglob2, hglob, List.filter_filter]
      apply List.filter_congr
      intro x _
      by_cases h1 : x.name = old.name
      · simp [List.mem_cons, h1]
      · by_cases h2 : x.name ∈ rest.map File.name
        · simp [List.mem_cons, h1, h2]
        · simp [List.mem_cons, h1, h2]
    · intro o ho
      rcases List.mem_cons.mp ho with h | h
      · subst h
        exact ⟨fun f hf => hname f (hsub2 f hf),
          fun m hm f hf => haudio m hm f (hsub2 f hf)⟩
      · exact hprops o h

/-- The slice audio_files[MAX_CACHE_SIZE:] of _cleanup_old_files: the
records the eviction pass selects. -/
def evictedRecords (d : Dir) : List File :=
  (sortedByMtimeDesc (globJson d)).drop MAX_CACHE_SIZE

theorem sorted_names_pairwise (d : Dir) (hd : distinctNames d) :
    (sortedByMtimeDesc (globJson d)).Pairwise (fun a b => a.name ≠ b.name) := by
  have h1 : (globJson d).Pairwise (fun a b => a.name ≠ b.name) :=
    List.Pairwise.sublist (List.filter_sublist d) hd
  exact (List.Perm.pairwise_iff (fun h => Ne.symm h)
    (List.perm_insertionSort mtimeDescRel (globJson d))).mpr h1

theorem fileExists_unlink_self (d : Dir) (n : String) :
    fileExists (unlink d n) n = false := by
  unfold fileExists
  rw [List.any_eq_false]
  intro x hx
  simpa using name_ne_of_mem_unlink hx

/-- When the glob holds more than MAX_CACHE_SIZE records, the cleanup pass
is the eviction fold, and the fold spec applies. -/
theorem cleanup_fold_spec (d : Dir) (hd : distinctNames d) (hrefs : goodAudioRefs d)
    (hlen : (sortedByMtimeDesc (globJson d)).length > MAX_CACHE_SIZE) :
    ∃ d2, cleanup_old_files d = .ok d2 ∧
      (∀ x ∈ d2, x ∈ d) ∧ distinctNames d2 ∧
      globJson d2 = (globJson d).filter
        (fun g => decide (g.name ∉ (evictedRecords d).map File.name)) ∧
      (∀ old ∈ evictedRecords d,
        (∀ f ∈ d2, f.name ≠ old.name) ∧
        ∀ m, old.parsed = some m → ∀ f ∈ d2, f.name ≠ m.audio_file) := by
  have hmemg : ∀ f ∈ evictedRecords d, f ∈ globJson d := fun f hf =>
    (List.perm_insertionSort mtimeDescRel (globJson d)).mem_iff.mp
      ((List.drop_sublist MAX_CACHE_SIZE (sortedByMtimeDesc (globJson d))).subset hf)
  obtain ⟨d2, hfold, hsub, hnames, hglob, hprops⟩ :=
    foldlM_evictOne_spec (evictedRecords d) d hd
      (fun f hf => List.mem_of_mem_filter (hmemg f hf))
      (fun f hf => (List.mem_filter.mp (hmemg f hf)).2)
      (fun f hf => hrefs f (List.mem_of_mem_filter (hmemg f hf))
        ((List.mem_filter.mp (hmemg f hf)).2))
      (List.Pairwise.sublist (List.drop_sublist MAX_CACHE_SIZE _)
        (sorted_names_pairwise d hd))
  refine ⟨d2, ?_, hsub, hnames, hglob, hprops⟩
  simp only [cleanup_old_files]
  rw [if_pos hlen]
  exact hfold

/-! C2 : eviction removes the metadata record and its audio payload
together, payload first. -/

/-- C2: for every record the eviction pass selects whose metadata loads,
the pass succeeds and afterwards no file carries the record name and no
file carries its audio payload name — in particular when both existed
beforehand both are gone, never only one; and within the iteration the
payload is deleted first: in the intermediate state the metadata record is
still present while the payload is already absent, and the iteration is
exactly the metadata unlink applied to that intermediate state. -/
theorem eviction_pairs (d : Dir) (old : File) (m : Metadata)
    (hd : distinctNames d) (hrefs : goodAudioRefs d)
    (hold : old ∈ evictedRecords d) (hm : old.parsed = some m) :
    (∃ d2, cleanup_old_files d = .ok d2 ∧
      (∀ f ∈ d2, f.name ≠ old.name) ∧
      (∀ f ∈ d2, f.name ≠ m.audio_file)) ∧
    old ∈ evict_intermediate d old ∧
    fileExists (evict_intermediate d old) m.audio_file = false ∧
    evictOne d old = unlinkE (evict_intermediate d old) old.name := by
  have hmemg : old ∈ globJson d :=
    (List.perm_insertionSort mtimeDescRel (globJson d)).mem_iff.mp
      ((List.drop_sublist MAX_CACHE_SIZE (sortedByMtimeDesc (globJson d))).subset hold)
  have holdd : old ∈ d := List.mem_of_mem_filter hmemg
  have hjson : isJsonName old.name = true := (List.mem_filter.mp hmemg).2
  have haud : isJsonName m.audio_file = false := by
    have h1 := hrefs old holdd hjson
    rw [hm] at h1
    simpa using h1
  have hlen : (sortedByMtimeDesc (globJson d)).length > MAX_CACHE_SIZE := by
    by_contra hc
    push_neg at hc
    unfold evictedRecords at hold
    rw [List.drop_eq_nil_of_le hc] at hold
    exact absurd hold (List.not_mem_nil old)
  obtain ⟨d2, hclean, _, _, _, hprops⟩ := cleanup_fold_spec d hd hrefs hlen
  have hload : load_metadata d old.name = old.parsed := load_metadata_mem d old hd holdd
  have hpart1 : ∃ d2, cleanup_old_files d = .ok d2 ∧
      (∀ f ∈ d2, f.name ≠ old.name) ∧ (∀ f ∈ d2, f.name ≠ m.audio_file) :=
    ⟨d2, hclean, (hprops old hold).1, fun f hf => (hprops old hold).2 m hm f hf⟩
  by_cases hex : fileExists d m.audio_file = true
  · have hdi : evict_intermediate d old = unlink d m.audio_file := by
      unfold evict_intermediate
      simp only [hload, hm]
      rw [if_pos hex]
    refine ⟨hpart1, ?_, ?_, rfl⟩
    · rw [hdi]
      exact mem_unlink_of_ne holdd (isJson_ne hjson haud)
    · rw [hdi]
      exact fileExists_unlink_self d m.audio_file
  · have hexf : fileExists d m.audio_file = false := by
      cases hv : fileExists d m.audio_file with
      | false => rfl
      | true => exact absurd hv hex
    have hdi : evict_intermediate d old = d := by
      unfold evict_intermediate
      simp only [hload, hm]
      rw [if_neg hex]
    refine ⟨hpart1, ?_, ?_, rfl⟩
    · rw [hdi]
      exact holdd
    · rw [hdi]
      exact hexf

/-! C1 : bounded retention with LRU-by-mtime eviction. -/

/-- C1: for every well-formed starting state (unique file names, audio
payload references that are not *.json names, and pairwise distinct record
mtimes, under which the MAX_CACHE_SIZE most-recently-modified records are
well defined), the eviction pass run by AudioCache construction succeeds,
and afterwards the number of metadata records present is
min(countBefore, MAX_CACHE_SIZE); the retained records all existed before,
and every retained record is strictly more recently modified than every
evicted one — together with the count this says the retained records are
exactly the MAX_CACHE_SIZE most-recently-modified ones. -/
theorem bounded_retention (d : Dir)
    (hd : distinctNames d) (hrefs : goodAudioRefs d)
    (hmt : distinctMtimes (globJson d)) :
    ∃ d2, audioCache_init d = .ok d2 ∧
      (globJson d2).length = min (globJson d).length MAX_CACHE_SIZE ∧
      (∀ r ∈ globJson d2, r ∈ globJson d) ∧
      (∀ r ∈ globJson d2, ∀ e ∈ globJson d, e ∉ globJson d2 → e.mtime < r.mtime) := by
  have hperm : (sortedByMtimeDesc (globJson d)).Perm (globJson d) :=
    List.perm_insertionSort mtimeDescRel (globJson d)
  have hsorted : List.Sorted mtimeDescRel (sortedByMtimeDesc (globJson d)) :=
    List.sorted_insertionSort mtimeDescRel (globJson d)
  by_cases hlen : (sortedByMtimeDesc (globJson d)).length > MAX_CACHE_SIZE
  · obtain ⟨d2, hclean, hsub, hnames2, hglob, _⟩ := cleanup_fold_spec d hd hrefs hlen
    have hps : List.Pairwise mtimeDescRel
        ((sortedByMtimeDesc (globJson d)).take MAX_CACHE_SIZE ++ evictedRecords d) := by
      unfold evictedRecords
      rw [List.take_append_drop]
      exact hsorted
    have hns : List.Pairwise (fun a b : File => a.name ≠ b.name)
        ((sortedByMtimeDesc (globJson d)).take MAX_CACHE_SIZE ++ evictedRecords d) := by
      unfold evictedRecords
      rw [List.take_append_drop]
      exact sorted_names_pairwise d hd
    have htake_not : ∀ a ∈ (sortedByMtimeDesc (globJson d)).take MAX_CACHE_SIZE,
        a.name ∉ (evictedRecords d).map File.name := by
      intro a ha hmem
      obtain ⟨b, hb, hbeq⟩ := List.mem_map.mp hmem
      exact absurd hbeq.symm ((List.pairwise_append.mp hns).2.2 a ha b hb)
    have hsplitfil : (sortedByMtimeDesc (globJson d)).filter
        (fun g => decide (g.name ∉ (evictedRecords d).map File.name)) =
        (sortedByMtimeDesc (globJson d)).take MAX_CACHE_SIZE := by
      conv_lhs =>
        rw [show sortedByMtimeDesc (globJson d) =
          (sortedByMtimeDesc (globJson d)).take MAX_CACHE_SIZE ++ evictedRecords d from
          (List.take_append_drop MAX_CACHE_SIZE (sortedByMtimeDesc (globJson d))).symm]
      rw [List.filter_append]
      have h1 : (evictedRecords d).filter
          (fun g => decide (g.name ∉ (evictedRecords d).map File.name)) = [] := by
        apply List.filter_eq_nil_iff.mpr
        intro a ha
        simp only [decide_eq_true_eq, Decidable.not_not]
        exact List.mem_map_of_mem File.name ha
      have h2 : ((sortedByMtimeDesc (globJson d)).take MAX_CACHE_SIZE).filter
          (fun g => decide (g.name ∉ (evictedRecords d).map File.name)) =
          (sortedByMtimeDesc (globJson d)).take MAX_CACHE_SIZE := by
        apply List.filter_eq_self.mpr
        intro a ha
        simp only [decide_eq_true_eq]
        exact htake_not a ha
      rw [h1, h2, List.append_nil]
    have hfilperm : ((globJson d).filter
        (fun g => decide (g.name ∉ (evictedRecords d).map File.name))).Perm
        ((sortedByMtimeDesc (globJson d)).take MAX_CACHE_SIZE) := by
      rw [← hsplitfil]
      exact (hperm.filter _).symm
    refine ⟨d2, hclean, ?_, ?_, ?_⟩
    · rw [hglob, hfilperm.length_eq, List.length_take, ← hperm.length_eq]
      omega
    · intro r hr
      rw [hglob] at hr
      exact List.mem_of_mem_filter hr
    · intro r hr e he hnein
      have hrP := (List.mem_filter.mp (hglob ▸ hr)).2
      simp only [decide_eq_true_eq] at hrP
      have hrtake : r ∈ (sortedByMtimeDesc (globJson d)).take MAX_CACHE_SIZE := by
        have hrs : r ∈ (sortedByMtimeDesc (globJson d)).take MAX_CACHE_SIZE ++
            evictedRecords d := by
          unfold evictedRecords
          rw [List.take_append_drop]
          exact hperm.mem_iff.mpr (List.mem_of_mem_filter (hglob ▸ hr))
        rcases List.mem_append.mp hrs with h | h
        · exact h
        · exact absurd (List.mem_map_of_mem File.name h) hrP
      have hedrop : e ∈ evictedRecords d := by
        have hes : e ∈ (sortedByMtimeDesc (globJson d)).take MAX_CACHE_SIZE ++
            evictedRecords d := by
          unfold evictedRecords
          rw [List.take_append_drop]
          exact hperm.mem_iff.mpr he
        rcases List.mem_append.mp hes with h | h
        · exfalso
          apply hnein
          rw [hglob]
          apply List.mem_filter.mpr
          refine ⟨he, ?_⟩
          simp only [decide_eq_true_eq]
          exact htake_not e h
        · exact h
      have hle : e.mtime ≤ r.mtime :=
        (List.pairwise_append.mp hps).2.2 r hrtake e hedrop
      have hne : e ≠ r := fun hc => hnein (hc ▸ hr)
      have hmtne : e.mtime ≠ r.mtime :=
        List.Pairwise.forall (fun _ _ h => Ne.symm h) hmt he
          (List.mem_of_mem_filter (hglob ▸ hr)) hne
      omega
  · have hok : audioCache_init d = .ok d := by
      unfold audioCache_init
      simp only [cleanup_old_files]
      rw [if_neg hlen]
    have hle : (globJson d).length ≤ MAX_CACHE_SIZE := by
      rw [← hperm.length_eq]
      omega
    refine ⟨d, hok, ?_, fun r hr => hr, ?_⟩
    · rw [Nat.min_eq_left hle]
    · intro r _ e he hnein
      exact absurd he hnein

/-- A directory of twelve well-formed records (names of one to twelve
letters, mtimes 1 to 12) plus the audio payload of the oldest record. -/
def exDirBig : Dir :=
  (List.range 12).map (fun i =>
    ⟨String.mk (List.replicate (i + 1) 'a') ++ jsonExt, i + 1,
     some { id := String.mk (List.replicate (i + 1) 'a'), timestamp := exNow,
            text := exText, voice := none, format := DEFAULT_FORMAT,
            provider := exProviderName, instructions := none,
            audio_file := String.mk (List.replicate (i + 1) 'a') ++ "." ++ DEFAULT_FORMAT }⟩)
  ++ [⟨String.mk (List.replicate 1 'a') ++ "." ++ DEFAULT_FORMAT, 0, none⟩]

/-- Witness for C1 at the twelve-record directory. -/
theorem bounded_retention_witness :
    ∃ d2, audioCache_init exDirBig = .ok d2 ∧
      (globJson d2).length = min (globJson exDirBig).length MAX_CACHE_SIZE ∧
      (∀ r ∈ globJson d2, r ∈ globJson exDirBig) ∧
      (∀ r ∈ globJson d2, ∀ e ∈ globJson exDirBig, e ∉ globJson d2 →
        e.mtime < r.mtime) :=
  bounded_retention exDirBig (by decide) (by decide) (by decide)

def exOldMeta : Metadata :=
  { id := String.mk (List.replicate 1 'a'), timestamp := exNow, text := exText,
    voice := none, format := DEFAULT_FORMAT, provider := exProviderName,
    instructions := none,
    audio_file := String.mk (List.replicate 1 'a') ++ "." ++ DEFAULT_FORMAT }

/-- The oldest record of exDirBig, which the eviction pass selects. -/
def exOldRec : File :=
  ⟨String.mk (List.replicate 1 'a') ++ jsonExt, 1, some exOldMeta⟩

/-- Witness for C2 at the twelve-record directory: evicting the oldest
record removes both its metadata name and its audio payload name, and the
payload is gone in the intermediate state while the record is still
there. -/
theorem eviction_pairs_witness :
    (∃ d2, cleanup_old_files exDirBig = .ok d2 ∧
      (∀ f ∈ d2, f.name ≠ exOldRec.name) ∧
      (∀ f ∈ d2, f.name ≠ exOldMeta.audio_file)) ∧
    exOldRec ∈ evict_intermediate exDirBig exOldRec ∧
    fileExists (evict_intermediate exDirBig exOldRec) exOldMeta.audio_file = false ∧
    evictOne exDirBig exOldRec =
      unlinkE (evict_intermediate exDirBig exOldRec) exOldRec.name :=
  eviction_pairs exDirBig exOldRec exOldMeta (by decide) (by decide) (by decide) rfl

end Osay

